import Mathlib

/-!
Shallow embedding of the probabilistic data structures repository
(BloomFilter.py, COUNT_MIN_SKETCH.py, HYPERLOGLOG.py, MINHASH.py).

Modelling conventions, used throughout:
* Python integers are modelled as Int (or Nat where the source value is a
  count or an index that is provably non-negative).
* mmh3.hash is an opaque external hash; it is passed in as a function
  argument (String to Int for the signed 32-bit variant, String to Nat for
  the unsigned variant used by the cardinality estimators).
* Python lists indexed by in-range hash values are modelled as total
  functions from Nat; the constructor guarantees the indices used stay in
  range, which the theorems record as explicit positivity hypotheses.
* math.log over floats is modelled by an abstract function argument
  (Rat to Rat) together with the explicit domain error that math.log raises
  on non-positive arguments.
* Code that raises exceptions is modelled in the Except monad, with the
  raise placed exactly where the source raises (before any mutation).
-/

namespace PDS

/-! ## Bloom filter (src/BLOOM_FILTER/BloomFilter.py) -/

/-- State of BloomFilter.  The Python bit array [0] * size is modelled as
a total function; all indices the code actually touches are abs(h % size),
which lie in [0, size) for positive size. -/
structure BloomFilter where
  size : Int
  hash_count : Int
  bit_array : Nat → Nat
  elements_count : Nat

namespace BloomFilter

/-- BloomFilter.get_hash_values: for seed in range(hash_count),
abs(mmh3.hash(item, seed) % size).  The abs composed with use as a list
index is Int.natAbs. -/
def get_hash_values (mmh3 : String → Nat → Int) (bf : BloomFilter) (item : String) : List Nat :=
  (List.range bf.hash_count.toNat).map (fun seed => (mmh3 item seed % bf.size).natAbs)

/-- BloomFilter.add: set bit_array[v] = 1 for every hash value v, then
increment elements_count. -/
def add (mmh3 : String → Nat → Int) (bf : BloomFilter) (item : String) : BloomFilter :=
  let hash_values := get_hash_values mmh3 bf item
  { bf with
    bit_array := hash_values.foldl (fun arr v => Function.update arr v 1) bf.bit_array
    elements_count := bf.elements_count + 1 }

/-- BloomFilter.check: return "Definitely not present" on the first probed
bit equal to 0, otherwise "Probably present". -/
def check (mmh3 : String → Nat → Int) (bf : BloomFilter) (item : String) : String :=
  let hash_values := get_hash_values mmh3 bf item
  if hash_values.any (fun v => bf.bit_array v == 0) then "Definitely not present"
  else "Probably present"

/-- A sequence of add calls, applied left to right. -/
def run_adds (mmh3 : String → Nat → Int) (items : List String) (bf : BloomFilter) : BloomFilter :=
  items.foldl (fun s it => add mmh3 s it) bf

end BloomFilter

section BloomLemmas

variable (mmh3 : String → Nat → Int)

lemma foldSet_ne_zero (l : List Nat) (arr : Nat → Nat) (v : Nat) (h : arr v ≠ 0) :
    (l.foldl (fun a i => Function.update a i 1) arr) v ≠ 0 := by
  induction l generalizing arr with
  | nil => exact h
  | cons i rest ih =>
    refine ih _ ?_
    by_cases hv : v = i
    · subst hv; simp [Function.update]
    · simpa [Function.update, hv] using h

lemma foldSet_mem (l : List Nat) (arr : Nat → Nat) (v : Nat) (h : v ∈ l) :
    (l.foldl (fun a i => Function.update a i 1) arr) v ≠ 0 := by
  induction l generalizing arr with
  | nil => cases h
  | cons i rest ih =>
    rcases List.mem_cons.mp h with hv | hv
    · subst hv
      by_cases hmem : v ∈ rest
      · exact ih _ hmem
      · refine foldSet_ne_zero rest _ v ?_
        simp [Function.update]
    · exact ih _ hv

lemma add_size (bf : BloomFilter) (it : String) :
    (BloomFilter.add mmh3 bf it).size = bf.size := rfl

lemma add_hash_count (bf : BloomFilter) (it : String) :
    (BloomFilter.add mmh3 bf it).hash_count = bf.hash_count := rfl

lemma get_hash_values_congr (s t : BloomFilter) (it : String)
    (h1 : s.size = t.size) (h2 : s.hash_count = t.hash_count) :
    BloomFilter.get_hash_values mmh3 s it = BloomFilter.get_hash_values mmh3 t it := by
  unfold BloomFilter.get_hash_values
  rw [h1, h2]

lemma run_adds_size (l : List String) (bf : BloomFilter) :
    (BloomFilter.run_adds mmh3 l bf).size = bf.size := by
  induction l generalizing bf with
  | nil => rfl
  | cons a rest ih => simpa [BloomFilter.run_adds] using ih (BloomFilter.add mmh3 bf a)

lemma run_adds_hash_count (l : List String) (bf : BloomFilter) :
    (BloomFilter.run_adds mmh3 l bf).hash_count = bf.hash_count := by
  induction l generalizing bf with
  | nil => rfl
  | cons a rest ih => simpa [BloomFilter.run_adds] using ih (BloomFilter.add mmh3 bf a)

lemma add_bit_mono (bf : BloomFilter) (it : String) (v : Nat) (h : bf.bit_array v ≠ 0) :
    (BloomFilter.add mmh3 bf it).bit_array v ≠ 0 :=
  foldSet_ne_zero _ _ v h

lemma run_adds_bit_mono (l : List String) (bf : BloomFilter) (v : Nat)
    (h : bf.bit_array v ≠ 0) :
    (BloomFilter.run_adds mmh3 l bf).bit_array v ≠ 0 := by
  induction l generalizing bf with
  | nil => exact h
  | cons a rest ih =>
    simpa [BloomFilter.run_adds] using
      ih (BloomFilter.add mmh3 bf a) (add_bit_mono mmh3 bf a v h)

lemma add_sets_own_bits (bf : BloomFilter) (it : String) (v : Nat)
    (h : v ∈ BloomFilter.get_hash_values mmh3 bf it) :
    (BloomFilter.add mmh3 bf it).bit_array v ≠ 0 :=
  foldSet_mem _ _ v h

lemma check_of_bits_set (bf : BloomFilter) (it : String)
    (h : ∀ v ∈ BloomFilter.get_hash_values mmh3 bf it, bf.bit_array v ≠ 0) :
    BloomFilter.check mmh3 bf it = "Probably present" := by
  unfold BloomFilter.check
  have : (BloomFilter.get_hash_values mmh3 bf it).any (fun v => bf.bit_array v == 0) = false := by
    rw [List.any_eq_false]
    intro v hv
    simpa using h v hv
  simp [this]

end BloomLemmas

/-- C1: for every BloomFilter instance and every item x, after any sequence
of add calls that includes add(x), check(x) returns "Probably present" and
never "Definitely not present". -/
theorem bloom_no_false_negatives (mmh3 : String → Nat → Int) (bf : BloomFilter)
    (adds : List String) (x : String) (hsize : 0 < bf.size) (hmem : x ∈ adds) :
    BloomFilter.check mmh3 (BloomFilter.run_adds mmh3 adds bf) x = "Probably present" := by
  induction adds generalizing bf with
  | nil => cases hmem
  | cons a rest ih =>
    have hstep : BloomFilter.run_adds mmh3 (a :: rest) bf
        = BloomFilter.run_adds mmh3 rest (BloomFilter.add mmh3 bf a) := rfl
    by_cases hx : x ∈ rest
    · rw [hstep]
      exact ih (BloomFilter.add mmh3 bf a) (by rwa [add_size]) hx
    · have hxa : x = a := by
        rcases List.mem_cons.mp hmem with h | h
        · exact h
        · exact absurd h hx
      subst hxa
      rw [hstep]
      set s1 := BloomFilter.add mmh3 bf x with hs1
      set sF := BloomFilter.run_adds mmh3 rest s1 with hsF
      have hsz : sF.size = s1.size := run_adds_size mmh3 rest s1
      have hhc : sF.hash_count = s1.hash_count := run_adds_hash_count mmh3 rest s1
      have hsz1 : s1.size = bf.size := add_size mmh3 bf x
      have hhc1 : s1.hash_count = bf.hash_count := add_hash_count mmh3 bf x
      refine check_of_bits_set mmh3 sF x ?_
      intro v hv
      have hvals : BloomFilter.get_hash_values mmh3 sF x
          = BloomFilter.get_hash_values mmh3 bf x :=
        get_hash_values_congr mmh3 sF bf x (by rw [hsz, hsz1]) (by rw [hhc, hhc1])
      have hv' : v ∈ BloomFilter.get_hash_values mmh3 bf x := by rwa [hvals] at hv
      have h1 : s1.bit_array v ≠ 0 := add_sets_own_bits mmh3 bf x v hv'
      exact run_adds_bit_mono mmh3 rest s1 v h1

/-- A concrete Bloom filter state with size 5 and 2 hash functions, as the
constructor would produce for small parameters (all bits 0). -/
def bloomWitnessState : BloomFilter :=
  { size := 5, hash_count := 2, bit_array := fun _ => 0, elements_count := 0 }

/-- A concrete stand-in for mmh3.hash (any function works for the theorems). -/
def mmh3Witness : String → Nat → Int := fun item seed => (item.length : Int) * 7 + seed

/-- Witness for C1 at a concrete instance, item list and query. -/
theorem bloom_no_false_negatives_witness :
    0 < bloomWitnessState.size ∧ "a" ∈ ["a", "b"] ∧
      BloomFilter.check mmh3Witness
        (BloomFilter.run_adds mmh3Witness ["a", "b"] bloomWitnessState) "a"
        = "Probably present" :=
  ⟨by decide, by decide,
    bloom_no_false_negatives mmh3Witness bloomWitnessState ["a", "b"] "a"
      (by decide) (by decide)⟩

/-! ## Count-Min Sketch (src/COUNT_MIN_SKETCH/COUNT_MIN_SKETCH.py) -/

/-- CMSParameters dataclass (width, depth, epsilon, delta).  Widths and
depths produced by from_error_rate are positive integers, recorded as Nat. -/
structure CMSParameters where
  width : Nat
  depth : Nat
  epsilon : Rat
  delta : Rat

/-- Wraparound into the signed 64-bit range: the behaviour of numpy int64
addition on in-range operands. -/
def wrap64 (x : Int) : Int :=
  (x + 2 ^ 63) % 2 ^ 64 - 2 ^ 63

/-- State of CountMinSketch.  The np.zeros((depth, width), dtype=np.int64)
matrix is modelled as a total function on row and column indices whose cells
hold int64 values: every update goes through wrap64, so cell contents stay
in [-2^63, 2^63).  total_items is a plain Python int, hence unbounded. -/
structure CountMinSketch where
  width : Nat
  depth : Nat
  epsilon : Rat
  sketch : Nat → Nat → Int
  total_items : Int

namespace CountMinSketch

/-- CountMinSketch.__init__: zero matrix, zero total_items. -/
def init (params : CMSParameters) : CountMinSketch :=
  { width := params.width
    depth := params.depth
    epsilon := params.epsilon
    sketch := fun _ _ => 0
    total_items := 0 }

/-- CountMinSketch.get_hash_indices: for seed in range(depth),
abs(mmh3.hash(item, seed) % width). -/
def get_hash_indices (mmh3 : String → Nat → Int) (s : CountMinSketch) (item : String) :
    List Nat :=
  (List.range s.depth).map (fun seed => (mmh3 item seed % (s.width : Int)).natAbs)

/-- Write v into cell (r, c) of the sketch matrix. -/
def write_cell (sk : Nat → Nat → Int) (r c : Nat) (v : Int) : Nat → Nat → Int :=
  fun i j => if i = r ∧ j = c then v else sk i j

/-- The cell-update loop of add.  Each iteration performs
sketch[i][index] += count on an int64 cell: numpy first converts the Python
int count to int64, raising OverflowError when it does not fit (count is
already known positive when this loop runs, so only the upper bound can
fail), then adds with int64 wraparound. -/
def fold_cells (count : Int) :
    List (Nat × Nat) → (Nat → Nat → Int) → Except String (Nat → Nat → Int)
  | [], sk => .ok sk
  | p :: rest, sk =>
    if 2 ^ 63 ≤ count then .error "Python int too large to convert to C long"
    else fold_cells count rest (write_cell sk p.1 p.2 (wrap64 (sk p.1 p.2 + count)))

/-- CountMinSketch.add: raise ValueError for count <= 0 (before touching any
state), then run the cell-update loop over enumerate(indices) (which can
raise OverflowError on its first iteration), then accumulate total_items. -/
def add (mmh3 : String → Nat → Int) (s : CountMinSketch) (item : String) (count : Int) :
    Except String CountMinSketch :=
  if count ≤ 0 then .error "Count must be positive"
  else
    match fold_cells count (get_hash_indices mmh3 s item).enum s.sketch with
    | .error e => .error e
    | .ok sk => .ok { s with sketch := sk, total_items := s.total_items + count }

/-- CountMinSketch.get_count: minimum of the probed cells (min over an empty
generator raises, which only happens for depth = 0), paired with the error
bound total_items * epsilon. -/
def get_count (mmh3 : String → Nat → Int) (s : CountMinSketch) (item : String) :
    Except String (Int × Rat) :=
  let indices := get_hash_indices mmh3 s item
  match indices.enum.map (fun p => s.sketch p.1 p.2) with
  | [] => .error "min() arg is an empty sequence"
  | c :: rest => .ok (rest.foldl min c, (s.total_items : Rat) * s.epsilon)

/-- A sequence of add(item, count) calls, applied left to right; the first
raised error aborts the run as in Python. -/
def run_adds (mmh3 : String → Nat → Int) :
    List (String × Int) → CountMinSketch → Except String CountMinSketch
  | [], s => .ok s
  | (it, c) :: rest, s =>
    match add mmh3 s it c with
    | .error e => .error e
    | .ok s2 => run_adds mmh3 rest s2

/-- The exact cumulative count added for item x by a sequence of calls. -/
def true_count (x : String) (cs : List (String × Int)) : Int :=
  ((cs.filter (fun p => p.1 == x)).map (fun p => p.2)).sum

/-- Sum of all counts submitted by a sequence of add calls. -/
def counts_total (cs : List (String × Int)) : Int :=
  (cs.map (fun p => p.2)).sum

end CountMinSketch

section CMSLemmas

variable (mmh3 : String → Nat → Int)

lemma true_count_nil (x : String) : CountMinSketch.true_count x [] = 0 := rfl

lemma true_count_cons (x it : String) (c : Int) (rest : List (String × Int)) :
    CountMinSketch.true_count x ((it, c) :: rest)
      = (if it = x then c else 0) + CountMinSketch.true_count x rest := by
  unfold CountMinSketch.true_count
  by_cases h : it = x
  · have hb : (it == x) = true := by simp [h]
    simp [List.filter_cons, hb, h]
  · have hb : (it == x) = false := by simp [h]
    simp [List.filter_cons, hb, h]

lemma counts_total_cons (it : String) (c : Int) (rest : List (String × Int)) :
    CountMinSketch.counts_total ((it, c) :: rest) = c + CountMinSketch.counts_total rest := by
  simp [CountMinSketch.counts_total]

lemma wrap64_eq_self (x : Int) (h1 : -(2 ^ 63) ≤ x) (h2 : x < 2 ^ 63) : wrap64 x = x := by
  unfold wrap64
  have e63 : (2 : Int) ^ 63 = 9223372036854775808 := by norm_num
  have e64 : (2 : Int) ^ 64 = 18446744073709551616 := by norm_num
  rw [e63] at h1 h2
  rw [e63, e64]
  rw [Int.emod_eq_of_lt (by omega) (by omega)]
  omega

lemma fold_cells_eq (c : Int) (hc : c < 2 ^ 63) (l : List (Nat × Nat)) (sk : Nat → Nat → Int) :
    CountMinSketch.fold_cells c l sk
      = .ok (l.foldl
          (fun sk p => CountMinSketch.write_cell sk p.1 p.2 (wrap64 (sk p.1 p.2 + c))) sk) := by
  induction l generalizing sk with
  | nil => rfl
  | cons p rest ih =>
    unfold CountMinSketch.fold_cells
    rw [if_neg (not_le.mpr hc), List.foldl_cons]
    exact ih _

lemma foldWrap_row_untouched (c : Int) (l : List (Nat × Nat)) (sk : Nat → Nat → Int)
    (i j : Nat) (h : ∀ p ∈ l, p.1 ≠ i) :
    (l.foldl (fun sk p => CountMinSketch.write_cell sk p.1 p.2 (wrap64 (sk p.1 p.2 + c))) sk) i j
      = sk i j := by
  induction l generalizing sk with
  | nil => rfl
  | cons p rest ih =>
    have hp : p.1 ≠ i := h p (List.mem_cons_self p rest)
    have hrest : ∀ q ∈ rest, q.1 ≠ i := fun q hq => h q (List.mem_cons_of_mem p hq)
    rw [List.foldl_cons, ih _ hrest]
    unfold CountMinSketch.write_cell
    have : ¬(i = p.1 ∧ j = p.2) := by
      intro hij
      exact hp hij.1.symm
    simp [this]

lemma foldWrap_not_mem (c : Int) (l : List (Nat × Nat)) (sk : Nat → Nat → Int)
    (i j : Nat) (h : (i, j) ∉ l) :
    (l.foldl (fun sk p => CountMinSketch.write_cell sk p.1 p.2 (wrap64 (sk p.1 p.2 + c))) sk) i j
      = sk i j := by
  induction l generalizing sk with
  | nil => rfl
  | cons p rest ih =>
    have hp : p ≠ (i, j) := fun hq => h (hq ▸ List.mem_cons_self p rest)
    have hrest : (i, j) ∉ rest := fun hq => h (List.mem_cons_of_mem p hq)
    rw [List.foldl_cons, ih _ hrest]
    unfold CountMinSketch.write_cell
    have : ¬(i = p.1 ∧ j = p.2) := by
      intro hij
      refine hp ?_
      rw [Prod.ext_iff]
      exact ⟨hij.1.symm, hij.2.symm⟩
    simp [this]

lemma foldWrap_mem (c : Int) (l : List (Nat × Nat)) (sk : Nat → Nat → Int)
    (i j : Nat) (hmem : (i, j) ∈ l) (hnd : (l.map Prod.fst).Nodup) :
    (l.foldl (fun sk p => CountMinSketch.write_cell sk p.1 p.2 (wrap64 (sk p.1 p.2 + c))) sk) i j
      = wrap64 (sk i j + c) := by
  induction l generalizing sk with
  | nil => cases hmem
  | cons p rest ih =>
    have hnd2 : (rest.map Prod.fst).Nodup := (List.nodup_cons.mp hnd).2
    have hhead : p.1 ∉ rest.map Prod.fst := (List.nodup_cons.mp hnd).1
    rcases List.mem_cons.mp hmem with hv | hv
    · subst hv
      rw [List.foldl_cons]
      have hrest : ∀ q ∈ rest, q.1 ≠ i := by
        intro q hq hqi
        exact hhead (by
          have : q.1 ∈ rest.map Prod.fst := List.mem_map_of_mem Prod.fst hq
          rwa [hqi] at this)
      rw [foldWrap_row_untouched c rest _ i j hrest]
      unfold CountMinSketch.write_cell
      simp
    · have hpi : p.1 ≠ i := by
        intro hq
        exact hhead (by
          have : (i, j).1 ∈ rest.map Prod.fst := List.mem_map_of_mem Prod.fst hv
          simpa [hq] using this)
      rw [List.foldl_cons, ih _ hv hnd2]
      unfold CountMinSketch.write_cell
      have : ¬(i = p.1 ∧ j = p.2) := by
        intro hij
        exact hpi hij.1.symm
      simp [this]

lemma foldWrap_cases (c : Int) (l : List (Nat × Nat)) (sk : Nat → Nat → Int)
    (i j : Nat) (hnd : (l.map Prod.fst).Nodup) :
    (l.foldl (fun sk p => CountMinSketch.write_cell sk p.1 p.2 (wrap64 (sk p.1 p.2 + c))) sk) i j
        = sk i j
      ∨ (l.foldl (fun sk p => CountMinSketch.write_cell sk p.1 p.2 (wrap64 (sk p.1 p.2 + c))) sk) i j
        = wrap64 (sk i j + c) := by
  by_cases hmem : (i, j) ∈ l
  · exact Or.inr (foldWrap_mem c l sk i j hmem hnd)
  · exact Or.inl (foldWrap_not_mem c l sk i j hmem)

lemma enum_fst_nodup (l : List Nat) : ((l.enum).map Prod.fst).Nodup := by
  rw [List.enum_map_fst]
  exact List.nodup_range _

lemma get_hash_indices_congr (s t : CountMinSketch) (it : String)
    (h1 : s.width = t.width) (h2 : s.depth = t.depth) :
    CountMinSketch.get_hash_indices mmh3 s it = CountMinSketch.get_hash_indices mmh3 t it := by
  unfold CountMinSketch.get_hash_indices
  rw [h1, h2]

lemma add_pos (s : CountMinSketch) (it : String) (c : Int) (s2 : CountMinSketch)
    (h : CountMinSketch.add mmh3 s it c = .ok s2) : 0 < c := by
  unfold CountMinSketch.add at h
  by_cases hc : c ≤ 0
  · simp [hc] at h
  · exact lt_of_not_ge hc

lemma add_inv (s : CountMinSketch) (it : String) (c : Int) (s2 : CountMinSketch)
    (hadd : CountMinSketch.add mmh3 s it c = .ok s2)
    (hA : ∀ i j, 0 ≤ s.sketch i j ∧ s.sketch i j ≤ s.total_items)
    (hbound : s.total_items + c < 2 ^ 63) :
    s2.width = s.width ∧ s2.depth = s.depth
      ∧ s2.total_items = s.total_items + c
      ∧ (∀ i j, 0 ≤ s2.sketch i j ∧ s2.sketch i j ≤ s2.total_items)
      ∧ (∀ i j, s.sketch i j ≤ s2.sketch i j)
      ∧ ∀ p ∈ (CountMinSketch.get_hash_indices mmh3 s it).enum,
          s2.sketch p.1 p.2 = s.sketch p.1 p.2 + c := by
  have hcpos : 0 < c := add_pos mmh3 s it c s2 hadd
  have hT : 0 ≤ s.total_items := le_trans (hA 0 0).1 (hA 0 0).2
  have hc63 : c < 2 ^ 63 := by
    have : c ≤ s.total_items + c := by linarith
    exact lt_of_le_of_lt this hbound
  have hpow : (0 : Int) < 2 ^ 63 := by positivity
  have hcle : ¬ c ≤ 0 := not_le_of_lt hcpos
  have hadd2 : CountMinSketch.add mmh3 s it c = Except.ok
      { s with
        sketch := (CountMinSketch.get_hash_indices mmh3 s it).enum.foldl
          (fun sk p => CountMinSketch.write_cell sk p.1 p.2 (wrap64 (sk p.1 p.2 + c))) s.sketch
        total_items := s.total_items + c } := by
    unfold CountMinSketch.add
    rw [if_neg hcle, fold_cells_eq c hc63]
  rw [hadd2] at hadd
  have hs2 := Except.ok.inj hadd
  subst hs2
  refine ⟨rfl, rfl, rfl, ?_, ?_, ?_⟩
  · intro i j
    dsimp only
    rcases foldWrap_cases c _ s.sketch i j
        (enum_fst_nodup (CountMinSketch.get_hash_indices mmh3 s it)) with hcase | hcase
    · rw [hcase]
      exact ⟨(hA i j).1, by have := (hA i j).2; linarith⟩
    · have hwrap : wrap64 (s.sketch i j + c) = s.sketch i j + c := by
        refine wrap64_eq_self _ ?_ ?_
        · have := (hA i j).1
          linarith
        · have := (hA i j).2
          linarith
      rw [hcase, hwrap]
      exact ⟨by have := (hA i j).1; linarith, by have := (hA i j).2; linarith⟩
  · intro i j
    dsimp only
    rcases foldWrap_cases c _ s.sketch i j
        (enum_fst_nodup (CountMinSketch.get_hash_indices mmh3 s it)) with hcase | hcase
    · rw [hcase]
    · have hwrap : wrap64 (s.sketch i j + c) = s.sketch i j + c := by
        refine wrap64_eq_self _ ?_ ?_
        · have := (hA i j).1
          linarith
        · have := (hA i j).2
          linarith
      rw [hcase, hwrap]
      linarith
  · intro p hp
    dsimp only
    have hmem : (p.1, p.2) ∈ (CountMinSketch.get_hash_indices mmh3 s it).enum := by
      simpa using hp
    have := foldWrap_mem c _ s.sketch p.1 p.2 hmem
      (enum_fst_nodup (CountMinSketch.get_hash_indices mmh3 s it))
    rw [this]
    refine wrap64_eq_self _ ?_ ?_
    · have := (hA p.1 p.2).1
      linarith
    · have := (hA p.1 p.2).2
      linarith

lemma run_adds_counts_nonneg (cs : List (String × Int)) (s s2 : CountMinSketch)
    (h : CountMinSketch.run_adds mmh3 cs s = .ok s2) :
    0 ≤ CountMinSketch.counts_total cs := by
  induction cs generalizing s with
  | nil => simp [CountMinSketch.counts_total]
  | cons hd rest ih =>
    obtain ⟨it, c⟩ := hd
    unfold CountMinSketch.run_adds at h
    cases hadd : CountMinSketch.add mmh3 s it c with
    | error e => rw [hadd] at h; cases h
    | ok s3 =>
      rw [hadd] at h
      have hc := add_pos mmh3 s it c s3 hadd
      have hrest := ih s3 h
      rw [counts_total_cons]
      linarith

lemma run_adds_inv (cs : List (String × Int)) (s s2 : CountMinSketch)
    (h : CountMinSketch.run_adds mmh3 cs s = .ok s2)
    (hA : ∀ i j, 0 ≤ s.sketch i j ∧ s.sketch i j ≤ s.total_items)
    (hsum : s.total_items + CountMinSketch.counts_total cs < 2 ^ 63) :
    s2.width = s.width ∧ s2.depth = s.depth
      ∧ ∀ x, ∀ p ∈ (CountMinSketch.get_hash_indices mmh3 s x).enum,
          s.sketch p.1 p.2 + CountMinSketch.true_count x cs ≤ s2.sketch p.1 p.2 := by
  induction cs generalizing s with
  | nil =>
    unfold CountMinSketch.run_adds at h
    cases h
    refine ⟨rfl, rfl, ?_⟩
    intro x p hp
    simp [true_count_nil]
  | cons hd rest ih =>
    obtain ⟨it, c⟩ := hd
    unfold CountMinSketch.run_adds at h
    cases hadd : CountMinSketch.add mmh3 s it c with
    | error e => rw [hadd] at h; cases h
    | ok s3 =>
      rw [hadd] at h
      have hrest_nonneg := run_adds_counts_nonneg mmh3 rest s3 s2 h
      rw [counts_total_cons] at hsum
      have hbound : s.total_items + c < 2 ^ 63 := by linarith
      obtain ⟨hw3, hd3, htot3, hA3, hmono3, hexact3⟩ := add_inv mmh3 s it c s3 hadd hA hbound
      have hsum3 : s3.total_items + CountMinSketch.counts_total rest < 2 ^ 63 := by
        rw [htot3]
        linarith
      obtain ⟨hw2, hd2, hcells2⟩ := ih s3 h hA3 hsum3
      refine ⟨by rw [hw2, hw3], by rw [hd2, hd3], ?_⟩
      intro x p hp
      have hp3 : p ∈ (CountMinSketch.get_hash_indices mmh3 s3 x).enum := by
        rwa [get_hash_indices_congr mmh3 s3 s x hw3 hd3]
      have hstep : s.sketch p.1 p.2 + (if it = x then c else 0) ≤ s3.sketch p.1 p.2 := by
        by_cases hit : it = x
        · subst hit
          rw [hexact3 p hp]
          simp
        · simpa [hit] using hmono3 p.1 p.2
      have hrest := hcells2 x p hp3
      rw [true_count_cons]
      calc s.sketch p.1 p.2 + ((if it = x then c else 0) + CountMinSketch.true_count x rest)
          = (s.sketch p.1 p.2 + (if it = x then c else 0)) + CountMinSketch.true_count x rest := by
            ring
        _ ≤ s3.sketch p.1 p.2 + CountMinSketch.true_count x rest := add_le_add_right hstep _
        _ ≤ s2.sketch p.1 p.2 := hrest

lemma foldl_min_ge (rest : List Int) (c T : Int) (h : T ≤ c) (hall : ∀ v ∈ rest, T ≤ v) :
    T ≤ rest.foldl min c := by
  induction rest generalizing c with
  | nil => exact h
  | cons d rest ih =>
    rw [List.foldl_cons]
    exact ih (min c d) (le_min h (hall d (List.mem_cons_self d rest)))
      (fun v hv => hall v (List.mem_cons_of_mem d hv))

end CMSLemmas

/-- C2 as amended: for every CountMinSketch built by the constructor and
every successful sequence of add(item, count) calls whose counts sum to less
than 2^63 (so no int64 cell ever wraps), the first component of get_count(x)
is at least the cumulative count added for x. -/
theorem cms_no_undercount (mmh3 : String → Nat → Int) (params : CMSParameters)
    (cs : List (String × Int)) (s' : CountMinSketch) (x : String) (est : Int) (eb : Rat)
    (hsum : CountMinSketch.counts_total cs < 2 ^ 63)
    (hrun : CountMinSketch.run_adds mmh3 cs (CountMinSketch.init params) = .ok s')
    (hq : CountMinSketch.get_count mmh3 s' x = .ok (est, eb)) :
    CountMinSketch.true_count x cs ≤ est := by
  have h0A : ∀ i j, 0 ≤ (CountMinSketch.init params).sketch i j
      ∧ (CountMinSketch.init params).sketch i j ≤ (CountMinSketch.init params).total_items := by
    intro i j
    simp [CountMinSketch.init]
  have h0sum : (CountMinSketch.init params).total_items
      + CountMinSketch.counts_total cs < 2 ^ 63 := by
    simpa [CountMinSketch.init] using hsum
  obtain ⟨hw, hd, hcellsall⟩ := run_adds_inv mmh3 cs _ s' hrun h0A h0sum
  have hcells : ∀ p ∈ (CountMinSketch.get_hash_indices mmh3 s' x).enum,
      CountMinSketch.true_count x cs ≤ s'.sketch p.1 p.2 := by
    intro p hp
    have hp0 : p ∈ (CountMinSketch.get_hash_indices mmh3 (CountMinSketch.init params) x).enum := by
      rwa [get_hash_indices_congr mmh3 s' (CountMinSketch.init params) x hw hd] at hp
    have := hcellsall x p hp0
    simpa [CountMinSketch.init] using this
  have hq' : (match (CountMinSketch.get_hash_indices mmh3 s' x).enum.map
        (fun p => s'.sketch p.1 p.2) with
      | [] => (Except.error "min() arg is an empty sequence" : Except String (Int × Rat))
      | c :: rest => Except.ok (rest.foldl min c, (s'.total_items : Rat) * s'.epsilon))
        = .ok (est, eb) := by
    simpa only [CountMinSketch.get_count] using hq
  cases hlist : (CountMinSketch.get_hash_indices mmh3 s' x).enum.map
      (fun p => s'.sketch p.1 p.2) with
  | nil =>
    rw [hlist] at hq'
    exact absurd hq' (by simp)
  | cons c rest =>
    rw [hlist] at hq'
    simp only [Except.ok.injEq, Prod.mk.injEq] at hq'
    have hall : ∀ v ∈ c :: rest, CountMinSketch.true_count x cs ≤ v := by
      intro v hv
      have hv' : v ∈ (CountMinSketch.get_hash_indices mmh3 s' x).enum.map
          (fun p => s'.sketch p.1 p.2) := by rw [hlist]; exact hv
      obtain ⟨p, hp, hpv⟩ := List.mem_map.mp hv'
      rw [← hpv]
      exact hcells p hp
    rw [← hq'.1]
    exact foldl_min_ge rest c _ (hall c (List.mem_cons_self c rest))
      (fun v hv => hall v (List.mem_cons_of_mem c hv))

/-- Concrete CMS parameters for witnesses (as from_error_rate would derive
for mid-range epsilon and delta, scaled down). -/
def cmsWitnessParams : CMSParameters := ⟨3, 2, 1/100, 1/100⟩

/-- Concrete add sequence for witnesses. -/
def cmsWitnessAdds : List (String × Int) := [("a", 2), ("b", 1), ("a", 3)]

/-- Concrete add sequence of valid positive counts whose accumulation
overflows the int64 cells. -/
def cmsOverflowAdds : List (String × Int) := [("x", 2 ^ 62), ("x", 2 ^ 62), ("x", 2 ^ 62)]

/-- C2 counterexample: three add("x", 2^62) calls — each with a valid
positive count — wrap every one of x's int64 cells to -2^62, so get_count
returns -2^62 while the true cumulative count is 3 * 2^62; the original
claim fails on the code. -/
theorem cms_no_undercount_counterexample :
    ∃ s' est eb,
      CountMinSketch.run_adds mmh3Witness cmsOverflowAdds
          (CountMinSketch.init cmsWitnessParams) = .ok s'
        ∧ CountMinSketch.get_count mmh3Witness s' "x" = .ok (est, eb)
        ∧ ¬ (CountMinSketch.true_count "x" cmsOverflowAdds ≤ est) := by
  refine ⟨_, _, _, rfl, rfl, ?_⟩
  decide

/-- Witness for the amended C2 at a concrete hash, parameter set, add
sequence and query. -/
theorem cms_no_undercount_witness :
    CountMinSketch.counts_total cmsWitnessAdds < 2 ^ 63 ∧
    ∃ s' est eb,
      CountMinSketch.run_adds mmh3Witness cmsWitnessAdds
          (CountMinSketch.init cmsWitnessParams) = .ok s'
        ∧ CountMinSketch.get_count mmh3Witness s' "a" = .ok (est, eb)
        ∧ CountMinSketch.true_count "a" cmsWitnessAdds ≤ est := by
  refine ⟨by decide, _, _, _, rfl, rfl, ?_⟩
  exact cms_no_undercount mmh3Witness cmsWitnessParams cmsWitnessAdds _ "a" _ _
    (by decide) rfl rfl

/-- C6 counterexample: the positive count 2^63 does raise — numpy cannot
convert it to int64, so the first cell update raises OverflowError —
refuting the claim that every count > 0 is error-free. -/
theorem cms_add_validation_counterexample :
    (0 : Int) < 2 ^ 63
      ∧ CountMinSketch.add mmh3Witness (CountMinSketch.init cmsWitnessParams) "x" (2 ^ 63)
          = .error "Python int too large to convert to C long" :=
  ⟨by positivity, by rfl⟩

/-- C6 as amended: add(item, count) with count <= 0 raises the validation
error before touching the sketch matrix or total_items (in this embedding an
error result leaves the caller holding the unchanged state); with
0 < count < 2^63 it raises no error (counts >= 2^63 instead hit the int64
conversion OverflowError in the cell-update loop). -/
theorem cms_add_validation (mmh3 : String → Nat → Int) (s : CountMinSketch)
    (it : String) (c : Int) :
    (c ≤ 0 → CountMinSketch.add mmh3 s it c = .error "Count must be positive")
      ∧ (0 < c → c < 2 ^ 63 → ∃ s2, CountMinSketch.add mmh3 s it c = .ok s2) := by
  constructor
  · intro hc
    unfold CountMinSketch.add
    simp [hc]
  · intro hc hc63
    have h2 : CountMinSketch.add mmh3 s it c = Except.ok
        { s with
          sketch := (CountMinSketch.get_hash_indices mmh3 s it).enum.foldl
            (fun sk p => CountMinSketch.write_cell sk p.1 p.2 (wrap64 (sk p.1 p.2 + c)))
            s.sketch
          total_items := s.total_items + c } := by
      unfold CountMinSketch.add
      rw [if_neg (not_le_of_lt hc), fold_cells_eq c hc63]
    exact ⟨_, h2⟩

/-- Witness for the amended C6 at concrete states and counts. -/
theorem cms_add_validation_witness :
    ((-1 : Int) ≤ 0
      ∧ CountMinSketch.add mmh3Witness (CountMinSketch.init cmsWitnessParams) "a" (-1)
          = .error "Count must be positive")
    ∧ ((0 : Int) < 2 ∧ (2 : Int) < 2 ^ 63
      ∧ ∃ s2, CountMinSketch.add mmh3Witness (CountMinSketch.init cmsWitnessParams) "a" 2
          = .ok s2) :=
  ⟨⟨by decide,
    (cms_add_validation mmh3Witness (CountMinSketch.init cmsWitnessParams) "a" (-1)).1
      (by decide)⟩,
   ⟨by decide, by decide,
    (cms_add_validation mmh3Witness (CountMinSketch.init cmsWitnessParams) "a" 2).2
      (by decide) (by decide)⟩⟩

/-! ## MinHash (src/MINHASH/MINHASH.py)

The Python set iterated by compute_signature is modelled as the list of its
elements in iteration order (min over the hashed elements does not depend on
that order).  The built-in hash is opaque and passed in as pyHash.  Each
generated closure captures fixed coefficients (a, b), modelled as the pair.
-/

/-- The modulus 2 ** 31 - 1 used by the generated hash functions. -/
def max_value : Int := 2 ^ 31 - 1

/-- State of MinHash: the hash-function count and the coefficient pairs the
generated closures captured at construction time. -/
structure MinHash where
  num_hashes : Nat
  hash_functions : List (Int × Int)

namespace MinHash

/-- MinHash.generate_hash_functions: one (a, b) draw per function.  The
random draws are externalized as an input function from loop index. -/
def generate_hash_functions (num_hashes : Nat) (draws : Nat → Int × Int) :
    List (Int × Int) :=
  (List.range num_hashes).map draws

/-- MinHash.__init__ with the random draws externalized. -/
def make (num_hashes : Nat) (draws : Nat → Int × Int) : MinHash :=
  { num_hashes := num_hashes
    hash_functions := generate_hash_functions num_hashes draws }

/-- One generated closure: (a * hash(x) + b) % max_value. -/
def hash_function (pyHash : String → Int) (ab : Int × Int) (x : String) : Int :=
  (ab.1 * pyHash x + ab.2) % max_value

/-- min over a generator of hashed elements; raises on an empty collection
exactly as the Python built-in min does. -/
def min_over (pyHash : String → Int) (ab : Int × Int) (input_set : List String) :
    Except String Int :=
  match input_set.map (hash_function pyHash ab) with
  | [] => .error "min() arg is an empty sequence"
  | v :: rest => .ok (rest.foldl min v)

/-- MinHash.compute_signature: one minimum per hash function, in order; the
first empty-set minimum raises. -/
def compute_signature (pyHash : String → Int) (m : MinHash) (input_set : List String) :
    Except String (List Int) :=
  go m.hash_functions
where
  go : List (Int × Int) → Except String (List Int)
    | [] => .ok []
    | ab :: rest =>
      match min_over pyHash ab input_set with
      | .error e => .error e
      | .ok v =>
        match go rest with
        | .error e => .error e
        | .ok sig => .ok (v :: sig)

/-- compute_signature as a state transformer: the method body reads
self.hash_functions and assigns only locals, so the instance it returns to
the caller is the one it was called on. -/
def compute_signature_st (pyHash : String → Int) (m : MinHash) (input_set : List String) :
    Except String (List Int) × MinHash :=
  (compute_signature pyHash m input_set, m)

/-- MinHash.estimate_similarity: zip truncates to the shorter signature;
the sum of matches is divided by len(signature_a), which raises a
division-by-zero error only when signature_a is empty. -/
def estimate_similarity (signature_a signature_b : List Int) : Except String Rat :=
  let match_count := ((signature_a.zip signature_b).filter (fun p => p.1 == p.2)).length
  if signature_a.length = 0 then .error "division by zero"
  else .ok ((match_count : Rat) / (signature_a.length : Rat))

end MinHash

/-- C9: for every MinHash instance with at least one hash function,
compute_signature applied to an empty input set raises the explicit
empty-sequence error rather than returning a value. -/
theorem minhash_empty_set_error (pyHash : String → Int) (n : Nat) (draws : Nat → Int × Int)
    (h : 1 ≤ n) :
    MinHash.compute_signature pyHash (MinHash.make n draws) []
      = .error "min() arg is an empty sequence" := by
  have hne : (MinHash.make n draws).hash_functions ≠ [] := by
    unfold MinHash.make MinHash.generate_hash_functions
    simp only [ne_eq, List.map_eq_nil_iff, List.range_eq_nil]
    omega
  unfold MinHash.compute_signature
  cases hfs : (MinHash.make n draws).hash_functions with
  | nil => exact absurd hfs hne
  | cons ab rest =>
    unfold MinHash.compute_signature.go
    have : MinHash.min_over pyHash ab [] = .error "min() arg is an empty sequence" := rfl
    rw [this]

/-- Witness for C9 at a concrete instance. -/
theorem minhash_empty_set_error_witness :
    1 ≤ 1 ∧
      MinHash.compute_signature (fun s => (s.length : Int))
          (MinHash.make 1 (fun _ => (1, 0))) []
        = .error "min() arg is an empty sequence" :=
  ⟨by decide,
    minhash_empty_set_error (fun s => (s.length : Int)) 1 (fun _ => (1, 0)) (by decide)⟩

/-- C10: on one instance, two successive compute_signature calls on the same
non-empty set return identical signatures; the coefficients are fixed at
construction and the first call hands back the unchanged instance. -/
theorem minhash_deterministic (pyHash : String → Int) (m : MinHash)
    (input_set : List String) (_hne : input_set ≠ []) :
    (MinHash.compute_signature_st pyHash
        (MinHash.compute_signature_st pyHash m input_set).2 input_set).1
      = (MinHash.compute_signature_st pyHash m input_set).1 := rfl

/-- Witness for C10 at a concrete instance and set. -/
theorem minhash_deterministic_witness :
    (["x", "y"] : List String) ≠ [] ∧
      (MinHash.compute_signature_st (fun s => (s.length : Int))
          (MinHash.compute_signature_st (fun s => (s.length : Int))
            (MinHash.make 2 (fun i => ((i : Int) + 1, 3)))
            ["x", "y"]).2 ["x", "y"]).1
        = (MinHash.compute_signature_st (fun s => (s.length : Int))
            (MinHash.make 2 (fun i => ((i : Int) + 1, 3))) ["x", "y"]).1 :=
  ⟨by decide,
    minhash_deterministic (fun s => (s.length : Int))
      (MinHash.make 2 (fun i => ((i : Int) + 1, 3))) ["x", "y"] (by decide)⟩

/-- C5 counterexample: on the unequal-length pair [0, 1] and [0],
estimate_similarity returns the numeric value 1/2 instead of raising. -/
theorem estimate_similarity_length_counterexample :
    MinHash.estimate_similarity [0, 1] [0] = .ok (1 / 2) := by
  unfold MinHash.estimate_similarity
  norm_num

/-- C5 as amended: for signatures of unequal length (signature_a non-empty),
estimate_similarity raises no error and returns a numeric value. -/
theorem estimate_similarity_no_length_check (a b : List Int)
    (_hlen : a.length ≠ b.length) (ha : a.length ≠ 0) :
    ∃ q, MinHash.estimate_similarity a b = .ok q := by
  unfold MinHash.estimate_similarity
  simp [ha]

/-- Witness for the amended C5 at a concrete unequal-length pair. -/
theorem estimate_similarity_no_length_check_witness :
    ([0, 1] : List Int).length ≠ ([0] : List Int).length ∧
      ∃ q, MinHash.estimate_similarity [0, 1] [0] = .ok q :=
  ⟨by decide, estimate_similarity_no_length_check [0, 1] [0] (by decide) (by decide)⟩

/-! ## Cardinality estimators (src/HYPERLOGLOG/HYPERLOGLOG.py)

mmh3.hash(item, signed=False) is an opaque 32-bit unsigned hash, passed in
as a function argument mmh3u : String to Nat.  The np.int8 register array is
modelled as a total function from register index to Nat (register values
never exceed 32 in reachable states).  Float arithmetic in estimate() is
modelled over Rat, with math.log passed in as an abstract function; the
claims settled here depend only on which state fields estimate() writes,
and it writes none (np.sort returns a sorted copy, and every assignment in
the three estimate bodies targets a local variable).
-/

/-- EstimatorParams dataclass. -/
structure EstimatorParams where
  precision : Nat
  num_registers : Nat

/-- EstimatorParams.from_precision: validated to 4 <= precision <= 16. -/
def EstimatorParams.from_precision (precision : Nat) : Except String EstimatorParams :=
  if 4 ≤ precision ∧ precision ≤ 16 then
    .ok { precision := precision, num_registers := 1 <<< precision }
  else .error "Precision must be between 4 and 16"

/-- BaseLogEstimator.get_alpha. -/
def get_alpha (m : Nat) : Rat :=
  if m = 16 then 0.673
  else if m = 32 then 0.697
  else if m = 64 then 0.709
  else 0.7213 / (1 + 1.079 / (m : Rat))

/-- Common state of BaseLogEstimator (params flattened in). -/
structure BaseLogEstimator where
  precision : Nat
  num_registers : Nat
  registers : Nat → Nat
  alpha : Rat

namespace BaseLogEstimator

/-- BaseLogEstimator.__init__. -/
def init (precision : Nat) : Except String BaseLogEstimator :=
  match EstimatorParams.from_precision precision with
  | .error e => .error e
  | .ok params =>
    .ok { precision := params.precision
          num_registers := params.num_registers
          registers := fun _ => 0
          alpha := get_alpha params.num_registers }

/-- BaseLogEstimator.get_register_index: hash_value & (num_registers - 1). -/
def get_register_index (s : BaseLogEstimator) (hash_value : Nat) : Nat :=
  hash_value &&& (s.num_registers - 1)

/-- BaseLogEstimator.get_leading_zeros:
min(32 - precision, (value | 1).bit_length() - 1) for
value = hash_value >> precision.  Nat.size is bit_length. -/
def get_leading_zeros (s : BaseLogEstimator) (hash_value : Nat) : Nat :=
  let value := hash_value >>> s.precision
  min (32 - s.precision) (Nat.size (value ||| 1) - 1)

/-- Python int() truncation toward zero on a rational. -/
def py_int (q : Rat) : Int :=
  if 0 ≤ q then q.floor else q.ceil

/-- The register array as the list numpy iterates over. -/
def register_list (s : BaseLogEstimator) : List Nat :=
  (List.range s.num_registers).map s.registers

/-- np.mean over a list of rationals. -/
def np_mean (l : List Rat) : Rat :=
  l.sum / (l.length : Rat)

end BaseLogEstimator

/-- Modelled from the spec: the candidate rank described by the spec for
add — the leading-zero count of the remaining 32 - p high bits, capped at
32 - p, plus one.  Stated for comparison with get_leading_zeros, which the
source actually writes into the register. -/
def spec_candidate_rank (p : Nat) (hash_value : Nat) : Nat :=
  let value := hash_value >>> p
  min (32 - p) ((32 - p) - Nat.size value) + 1

namespace LogLog

/-- LogLog.add: registers[idx] = max(registers[idx], zeros). -/
def add (mmh3u : String → Nat) (s : BaseLogEstimator) (item : String) : BaseLogEstimator :=
  let hash_val := mmh3u item
  let idx := s.get_register_index hash_val
  let zeros := s.get_leading_zeros hash_val
  { s with registers := Function.update s.registers idx (max (s.registers idx) zeros) }

/-- LogLog.estimate as a value-and-state pair: int(alpha * m * 1/mean(2^-r));
every statement in the body assigns a local, so the state is returned
unchanged. -/
def estimate_st (s : BaseLogEstimator) : Int × BaseLogEstimator :=
  let harmonic_mean :=
    1 / BaseLogEstimator.np_mean ((s.register_list).map (fun r => ((2 : Rat) ^ r)⁻¹))
  (BaseLogEstimator.py_int (s.alpha * (s.num_registers : Rat) * harmonic_mean), s)

end LogLog

/-- State of SuperLogLog: the base state plus the truncation threshold. -/
structure SuperLogLog extends BaseLogEstimator where
  truncate_threshold : Nat

namespace SuperLogLog

/-- SuperLogLog.__init__: base init plus
truncate_threshold = int(num_registers * truncate_percentage). -/
def init (precision : Nat) (truncate_percentage : Rat) : Except String SuperLogLog :=
  match BaseLogEstimator.init precision with
  | .error e => .error e
  | .ok base =>
    .ok { toBaseLogEstimator := base
          truncate_threshold :=
            (BaseLogEstimator.py_int ((base.num_registers : Rat) * truncate_percentage)).toNat }

/-- SuperLogLog.add: same body as LogLog.add. -/
def add (mmh3u : String → Nat) (s : SuperLogLog) (item : String) : SuperLogLog :=
  let hash_val := mmh3u item
  let idx := s.toBaseLogEstimator.get_register_index hash_val
  let zeros := s.toBaseLogEstimator.get_leading_zeros hash_val
  { s with registers := Function.update s.registers idx (max (s.registers idx) zeros) }

/-- SuperLogLog.estimate as a value-and-state pair: np.sort produces a
sorted copy, the slice keeps the lowest truncate_threshold registers, and
all assignments are to locals, so the state is returned unchanged. -/
def estimate_st (s : SuperLogLog) : Int × SuperLogLog :=
  let sorted_registers :=
    (s.toBaseLogEstimator.register_list).insertionSort (fun a b => a ≤ b)
  let truncated_registers := sorted_registers.take s.truncate_threshold
  let harmonic_mean :=
    1 / BaseLogEstimator.np_mean (truncated_registers.map (fun r => ((2 : Rat) ^ r)⁻¹))
  (BaseLogEstimator.py_int (s.alpha * (s.num_registers : Rat) * harmonic_mean), s)

end SuperLogLog

namespace HyperLogLog

/-- HyperLogLog.add: same body as LogLog.add. -/
def add (mmh3u : String → Nat) (s : BaseLogEstimator) (item : String) : BaseLogEstimator :=
  let hash_val := mmh3u item
  let idx := s.get_register_index hash_val
  let zeros := s.get_leading_zeros hash_val
  { s with registers := Function.update s.registers idx (max (s.registers idx) zeros) }

/-- HyperLogLog.estimate as a value-and-state pair, with math.log passed in
abstractly; the small-range branch recomputes from the zero-register count
and the large-range branch applies the saturation correction.  All
assignments are to locals, so the state is returned unchanged. -/
def estimate_st (log : Rat → Rat) (s : BaseLogEstimator) : Int × BaseLogEstimator :=
  let regs := s.register_list
  let harmonic_mean :=
    1 / BaseLogEstimator.np_mean (regs.map (fun r => ((2 : Rat) ^ r)⁻¹))
  let estimate := s.alpha * (s.num_registers : Rat) * harmonic_mean
  let corrected :=
    if estimate ≤ (2.5 : Rat) * (s.num_registers : Rat) then
      let num_zeros := (regs.filter (fun r => r == 0)).length
      if 0 < num_zeros then
        (s.num_registers : Rat) * log ((s.num_registers : Rat) / (num_zeros : Rat))
      else estimate
    else if (2 : Rat) ^ 32 / 30 < estimate then
      -((2 : Rat) ^ 32) * log (1 - estimate / (2 : Rat) ^ 32)
    else estimate
  (BaseLogEstimator.py_int corrected, s)

end HyperLogLog

/-- One operation submitted to an estimator instance. -/
inductive EstOp where
  | addItem (item : String)
  | estimateCall

/-- Whether an operation is an add. -/
def EstOp.isAdd : EstOp → Bool
  | .addItem _ => true
  | .estimateCall => false

/-- Run a list of operations against a LogLog instance. -/
def runLogLog (mmh3u : String → Nat) : List EstOp → BaseLogEstimator → BaseLogEstimator
  | [], s => s
  | .addItem it :: rest, s => runLogLog mmh3u rest (LogLog.add mmh3u s it)
  | .estimateCall :: rest, s => runLogLog mmh3u rest (LogLog.estimate_st s).2

/-- Run a list of operations against a SuperLogLog instance. -/
def runSuperLogLog (mmh3u : String → Nat) : List EstOp → SuperLogLog → SuperLogLog
  | [], s => s
  | .addItem it :: rest, s => runSuperLogLog mmh3u rest (SuperLogLog.add mmh3u s it)
  | .estimateCall :: rest, s => runSuperLogLog mmh3u rest (SuperLogLog.estimate_st s).2

/-- Run a list of operations against a HyperLogLog instance. -/
def runHyperLogLog (mmh3u : String → Nat) (log : Rat → Rat) :
    List EstOp → BaseLogEstimator → BaseLogEstimator
  | [], s => s
  | .addItem it :: rest, s => runHyperLogLog mmh3u log rest (HyperLogLog.add mmh3u s it)
  | .estimateCall :: rest, s => runHyperLogLog mmh3u log rest (HyperLogLog.estimate_st log s).2

/-- C7: one add on any of LogLog, SuperLogLog, HyperLogLog leaves every
register at least as large as before (max-update on one register, all
others untouched). -/
theorem register_monotonicity (mmh3u : String → Nat) (sL sH : BaseLogEstimator)
    (sS : SuperLogLog) (item : String) (j : Nat) :
    sL.registers j ≤ (LogLog.add mmh3u sL item).registers j
      ∧ sS.registers j ≤ (SuperLogLog.add mmh3u sS item).registers j
      ∧ sH.registers j ≤ (HyperLogLog.add mmh3u sH item).registers j := by
  refine ⟨?_, ?_, ?_⟩
  · unfold LogLog.add
    by_cases hj : j = sL.get_register_index (mmh3u item)
    · subst hj
      simp [Function.update]
    · simp [Function.update, hj]
  · unfold SuperLogLog.add
    by_cases hj : j = sS.toBaseLogEstimator.get_register_index (mmh3u item)
    · subst hj
      simp [Function.update]
    · simp [Function.update, hj]
  · unfold HyperLogLog.add
    by_cases hj : j = sH.get_register_index (mmh3u item)
    · subst hj
      simp [Function.update]
    · simp [Function.update, hj]

lemma runLogLog_filter (mmh3u : String → Nat) (ops : List EstOp) (s : BaseLogEstimator) :
    runLogLog mmh3u ops s = runLogLog mmh3u (ops.filter EstOp.isAdd) s := by
  induction ops generalizing s with
  | nil => rfl
  | cons op rest ih =>
    cases op with
    | addItem it => simpa [runLogLog, List.filter_cons, EstOp.isAdd] using ih (LogLog.add mmh3u s it)
    | estimateCall => simpa [runLogLog, List.filter_cons, EstOp.isAdd] using ih s

lemma runSuperLogLog_filter (mmh3u : String → Nat) (ops : List EstOp) (s : SuperLogLog) :
    runSuperLogLog mmh3u ops s = runSuperLogLog mmh3u (ops.filter EstOp.isAdd) s := by
  induction ops generalizing s with
  | nil => rfl
  | cons op rest ih =>
    cases op with
    | addItem it =>
      simpa [runSuperLogLog, List.filter_cons, EstOp.isAdd] using ih (SuperLogLog.add mmh3u s it)
    | estimateCall => simpa [runSuperLogLog, List.filter_cons, EstOp.isAdd] using ih s

lemma runHyperLogLog_filter (mmh3u : String → Nat) (log : Rat → Rat) (ops : List EstOp)
    (s : BaseLogEstimator) :
    runHyperLogLog mmh3u log ops s = runHyperLogLog mmh3u log (ops.filter EstOp.isAdd) s := by
  induction ops generalizing s with
  | nil => rfl
  | cons op rest ih =>
    cases op with
    | addItem it =>
      simpa [runHyperLogLog, List.filter_cons, EstOp.isAdd] using ih (HyperLogLog.add mmh3u s it)
    | estimateCall => simpa [runHyperLogLog, List.filter_cons, EstOp.isAdd] using ih s

/-- C8: estimate() hands back the unchanged instance on all three
estimators, so any interleaving of adds and estimates drives the state
exactly as the adds alone do. -/
theorem estimate_pure (mmh3u : String → Nat) (log : Rat → Rat) (ops : List EstOp)
    (sL sH : BaseLogEstimator) (sS : SuperLogLog) :
    (LogLog.estimate_st sL).2 = sL
      ∧ (SuperLogLog.estimate_st sS).2 = sS
      ∧ (HyperLogLog.estimate_st log sH).2 = sH
      ∧ runLogLog mmh3u ops sL = runLogLog mmh3u (ops.filter EstOp.isAdd) sL
      ∧ runSuperLogLog mmh3u ops sS = runSuperLogLog mmh3u (ops.filter EstOp.isAdd) sS
      ∧ runHyperLogLog mmh3u log ops sH = runHyperLogLog mmh3u log (ops.filter EstOp.isAdd) sH :=
  ⟨rfl, rfl, rfl, runLogLog_filter mmh3u ops sL, runSuperLogLog_filter mmh3u ops sS,
    runHyperLogLog_filter mmh3u log ops sH⟩

/-- C3: the rank the code writes diverges from the spec.  With precision 4
and an item whose 32-bit hash is 0, get_leading_zeros returns
min(28, (0 | 1).bit_length() - 1) = 0 and add writes 0 into register 0,
while the spec calls for the leading-zero count of the 28 high bits capped
at 28 plus one, which is 29. -/
theorem leading_zeros_divergence :
    (∃ s, BaseLogEstimator.init 4 = .ok s
        ∧ s.get_leading_zeros 0 = 0
        ∧ (LogLog.add (fun _ => 0) s "x").registers 0 = 0)
      ∧ spec_candidate_rank 4 0 = 29 ∧ (0 : Nat) ≠ 29 := by
  refine ⟨⟨_, rfl, ?_, ?_⟩, ?_, by omega⟩
  · simp [BaseLogEstimator.get_leading_zeros, Nat.zero_shiftRight, Nat.zero_or, Nat.size_one]
  · simp [LogLog.add, BaseLogEstimator.get_register_index, BaseLogEstimator.get_leading_zeros,
      Nat.zero_and, Nat.zero_shiftRight, Nat.zero_or, Nat.size_one, Function.update]
  · norm_num [spec_candidate_rank, Nat.zero_shiftRight, Nat.size_zero]

/-! ## BloomFilter construction (src/BLOOM_FILTER/BloomFilter.py, __init__)

math.log over floats is modelled as an abstract function on Rat, wrapped so
that the domain error math.log raises on non-positive arguments is explicit,
and float division by an exactly zero denominator is an explicit error as in
Python.  The constructor performs no parameter validation of its own. -/

/-- math.log: domain error for arguments <= 0, otherwise the abstract log. -/
def mathlog (log : Rat → Rat) (x : Rat) : Except String Rat :=
  if x ≤ 0 then .error "math domain error" else .ok (log x)

/-- BloomFilter.calculate_optimal_size:
ceil(-(n * log(p)) / (log 2) ** 2). -/
def calculate_optimal_size (log : Rat → Rat) (n : Int) (p : Rat) : Except String Int :=
  match mathlog log p with
  | .error e => .error e
  | .ok logp =>
    match mathlog log 2 with
    | .error e => .error e
    | .ok log2 =>
      if log2 ^ 2 = 0 then .error "float division by zero"
      else .ok (-((n : Rat) * logp) / log2 ^ 2).ceil

/-- BloomFilter.calculate_optimal_hash_count:
ceil((size / n) * log 2); dividing by n = 0 raises. -/
def calculate_optimal_hash_count (log : Rat → Rat) (size : Int) (n : Int) :
    Except String Int :=
  if n = 0 then .error "division by zero"
  else
    match mathlog log 2 with
    | .error e => .error e
    | .ok log2 => .ok (((size : Rat) / (n : Rat)) * log2).ceil

/-- BloomFilter.__init__: size, then hash count, then the bit array
([0] * size is empty whenever size <= 0), then elements_count = 0.  No
range check on expected_elements or false_positive_rate appears anywhere. -/
def BloomFilter.init (log : Rat → Rat) (expected_elements : Int)
    (false_positive_rate : Rat) : Except String BloomFilter :=
  match calculate_optimal_size log expected_elements false_positive_rate with
  | .error e => .error e
  | .ok size =>
    match calculate_optimal_hash_count log size expected_elements with
    | .error e => .error e
    | .ok hash_count =>
      .ok { size := size
            hash_count := hash_count
            bit_array := fun _ => 0
            elements_count := 0 }

/-- C4: the failing input.  With expected_elements = -5 (<= 0, so the claim
requires a parameter-range error) and false_positive_rate = 1/2, the
constructor raises nothing and returns a filter, for every log function
whose value at 2 is non-zero (math.log(2) is about 0.693). -/
theorem bloom_init_no_validation (log : Rat → Rat) (h : log 2 ≠ 0) :
    ∃ bf, BloomFilter.init log (-5) (1 / 2) = .ok bf := by
  unfold BloomFilter.init calculate_optimal_size calculate_optimal_hash_count mathlog
  have h2 : ¬ ((2 : Rat) ≤ 0) := by norm_num
  have hp : ¬ ((1 / 2 : Rat) ≤ 0) := by norm_num
  have hsq : ¬ ((log 2) ^ 2 = 0) := pow_ne_zero 2 h
  have hn : ¬ ((-5 : Int) = 0) := by norm_num
  simp [h2, hp, hsq, hn]

/-- Witness for C4 at a concrete log function. -/
theorem bloom_init_no_validation_witness :
    (fun x : Rat => x - 1) 2 ≠ 0 ∧
      ∃ bf, BloomFilter.init (fun x : Rat => x - 1) (-5) (1 / 2) = .ok bf :=
  ⟨by norm_num, bloom_init_no_validation (fun x : Rat => x - 1) (by norm_num)⟩

end PDS
